import Mathlib

/-!
Shallow embedding of the WorkWise job-matching application.

The repository has two source files: the catch-all API route
(`src/app/api/[[...path]]/route.js`, function `handleRoute`) and the page
component, which contains the client-side matcher `findMatchedJobs` and the
dashboard aggregators `getSkillFrequencyData` / `getJobDemandData`.
Definitions below are translated from that source.  JavaScript strings are
modelled as Lean `String` (ASCII suffices for every value the program
handles); `toLowerCase` is modelled character-wise and `replace('-','')`
removes only the first occurrence, as in JavaScript.
-/

set_option maxHeartbeats 1000000

namespace WorkWise

/-- A job posting from the static catalog (`skills-jobs.json`): id, title,
category, type ("Permanent" / "Part-Time" / "One-Time") and a list of skill
tags. -/
structure Job where
  id : Nat
  title : String
  category : String
  type : String
  tags : List String
  deriving DecidableEq

/-- A skill catalog entry. -/
structure Skill where
  id : Nat
  name : String
  deriving DecidableEq

/-- Character-wise ASCII model of JavaScript `toLowerCase()`. -/
def jsToLower (s : String) : String :=
  String.mk (s.data.map Char.toLower)

/-- Remove the first occurrence of `c` in a character list; the list model of
JavaScript `String.replace(c, ferase)` with a string pattern, which replaces
only the first occurrence. -/
def removeFirst (c : Char) : List Char → List Char
  | [] => []
  | x :: xs => if x = c then xs else x :: removeFirst c xs

/-- The type normalization the code applies:
`job.type.toLowerCase().replace('-', '')` — lowercase, then remove the FIRST
hyphen only. -/
def normalizeType (t : String) : String :=
  String.mk (removeFirst '-' (jsToLower t).data)

/-- Modelled from the spec: the normalization as the spec words it —
"lowercased, hyphens removed", i.e. ALL hyphens removed.  Kept separate from
`normalizeType` (the code's first-occurrence replace) so the two can be
compared. -/
def normalizeTypeSpec (t : String) : String :=
  String.mk ((jsToLower t).data.filter (fun c => c ≠ '-'))

/-- `job.tags.some(tag => userSkills.includes(tag))`. -/
def hasMatchingSkill (userSkills : List String) (job : Job) : Bool :=
  job.tags.any (fun tag => userSkills.contains tag)

/-- `jobFilter === 'all' || job.type.toLowerCase().replace('-','') === jobFilter`. -/
def matchesFilter (jobFilter : String) (job : Job) : Bool :=
  jobFilter == "all" || normalizeType job.type == jobFilter

/-- Number of a job's tags contained in `userSkills`:
`job.tags.filter(tag => userSkills.includes(tag)).length`, the sort key. -/
def matchCount (userSkills : List String) (job : Job) : Nat :=
  (job.tags.filter (fun tag => userSkills.contains tag)).length

/-- Insert `x` into a list sorted by descending `key`, before the first
element whose key is not larger.  Stable descending insertion. -/
def insertDescBy {α : Type} (key : α → Nat) (x : α) : List α → List α
  | [] => [x]
  | y :: ys => if key y ≤ key x then x :: y :: ys else y :: insertDescBy key x ys

/-- Stable sort by descending `key`.  `Array.prototype.sort` with the
comparator `(a, b) => bMatches - aMatches` is, per the ECMAScript standard,
a stable sort consistent with that comparator; any such sort produces the
same output, so insertion sort is a faithful model. -/
def sortDescBy {α : Type} (key : α → Nat) (l : List α) : List α :=
  l.foldr (insertDescBy key) []

/-- The matcher `findMatchedJobs` from the page component: early return on an
empty skill list, filter by shared tag and type filter, then stable sort by
descending shared-tag count. -/
def findMatchedJobs (jobs : List Job) (userSkills : List String)
    (jobFilter : String) : List Job :=
  if userSkills.length == 0 then []
  else
    sortDescBy (matchCount userSkills)
      (jobs.filter (fun job =>
        hasMatchingSkill userSkills job && matchesFilter jobFilter job))

/-- The type-filter values the UI offers besides "all". -/
def nonAllFilters : List String := ["permanent", "parttime", "onetime"]

/-! ### Lemmas about the stable descending insertion sort -/

theorem mem_insertDescBy {α : Type} (key : α → Nat) (x a : α) (l : List α) :
    a ∈ insertDescBy key x l ↔ a = x ∨ a ∈ l := by
  induction l with
  | nil => simp [insertDescBy]
  | cons y ys ih =>
    by_cases h : key y ≤ key x
    · simp [insertDescBy, h]
    · simp [insertDescBy, h, ih]
      tauto

theorem mem_sortDescBy {α : Type} (key : α → Nat) (a : α) (l : List α) :
    a ∈ sortDescBy key l ↔ a ∈ l := by
  induction l with
  | nil => simp [sortDescBy]
  | cons y ys ih =>
    simp only [sortDescBy, List.foldr_cons] at *
    rw [mem_insertDescBy, ih, List.mem_cons]

theorem pairwise_insertDescBy {α : Type} (key : α → Nat) (x : α) (l : List α)
    (hl : l.Pairwise (fun a b => key b ≤ key a)) :
    (insertDescBy key x l).Pairwise (fun a b => key b ≤ key a) := by
  induction l with
  | nil => simp [insertDescBy]
  | cons y ys ih =>
    rcases List.pairwise_cons.mp hl with ⟨hy, hys⟩
    by_cases h : key y ≤ key x
    · rw [insertDescBy, if_pos h]
      refine List.pairwise_cons.mpr ⟨?_, hl⟩
      intro b hb
      rcases List.mem_cons.mp hb with rfl | hb
      · exact h
      · exact le_trans (hy b hb) h
    · rw [insertDescBy, if_neg h]
      refine List.pairwise_cons.mpr ⟨?_, ih hys⟩
      intro b hb
      rcases (mem_insertDescBy key x b ys).mp hb with rfl | hb
      · exact le_of_not_le h
      · exact hy b hb

theorem pairwise_sortDescBy {α : Type} (key : α → Nat) (l : List α) :
    (sortDescBy key l).Pairwise (fun a b => key b ≤ key a) := by
  induction l with
  | nil => simp [sortDescBy]
  | cons y ys ih => exact pairwise_insertDescBy key y _ ih

theorem filter_insertDescBy_of_eq {α : Type} (key : α → Nat) (k : Nat) (x : α)
    (l : List α) (hx : key x = k) :
    (insertDescBy key x l).filter (fun a => key a == k)
      = x :: l.filter (fun a => key a == k) := by
  induction l with
  | nil => simp [insertDescBy, hx]
  | cons y ys ih =>
    by_cases h : key y ≤ key x
    · rw [insertDescBy, if_pos h, List.filter_cons, if_pos (by simp [hx])]
    · have hy : ¬ (key y == k) = true := by
        simp only [beq_iff_eq]
        omega
      rw [insertDescBy, if_neg h, List.filter_cons, if_neg hy, ih,
        List.filter_cons, if_neg hy]

theorem filter_insertDescBy_of_ne {α : Type} (key : α → Nat) (k : Nat) (x : α)
    (l : List α) (hx : key x ≠ k) :
    (insertDescBy key x l).filter (fun a => key a == k)
      = l.filter (fun a => key a == k) := by
  have hxb : ¬ (key x == k) = true := by simp [hx]
  induction l with
  | nil => simp [insertDescBy, hxb]
  | cons y ys ih =>
    by_cases h : key y ≤ key x
    · simp only [insertDescBy, if_pos h, List.filter_cons, if_neg hxb]
    · rw [insertDescBy, if_neg h, List.filter_cons, ih, List.filter_cons]

/-- Stability of the sort: the elements at any fixed key level come out in
exactly their input order. -/
theorem filter_sortDescBy {α : Type} (key : α → Nat) (k : Nat) (l : List α) :
    (sortDescBy key l).filter (fun a => key a == k)
      = l.filter (fun a => key a == k) := by
  induction l with
  | nil => simp [sortDescBy]
  | cons y ys ih =>
    simp only [sortDescBy, List.foldr_cons] at *
    by_cases h : key y = k
    · rw [filter_insertDescBy_of_eq key k y _ h, ih, List.filter_cons,
        if_pos (by simp [h])]
    · rw [filter_insertDescBy_of_ne key k y _ h, ih, List.filter_cons,
        if_neg (by simp [h])]

/-! ### Lemmas about type normalization -/

theorem removeFirst_eq_filter_of_not_mem (c : Char) (l : List Char)
    (h : c ∉ removeFirst c l) : l.filter (fun x => x ≠ c) = removeFirst c l := by
  induction l with
  | nil => simp [removeFirst]
  | cons x xs ih =>
    by_cases hx : x = c
    · rw [removeFirst, if_pos hx] at h ⊢
      rw [List.filter_cons, if_neg (by simp [hx])]
      exact List.filter_eq_self.mpr (by
        intro a ha
        simp only [ne_eq, decide_eq_true_eq]
        rintro rfl
        exact h ha)
    · rw [removeFirst, if_neg hx] at h ⊢
      rw [List.filter_cons, if_pos (by simp [hx])]
      rw [ih (fun hc => h (List.mem_cons_of_mem x hc))]

/-- When the code's first-occurrence normalization produces a hyphen-free
string `f`, the spec's remove-all-hyphens normalization produces `f` too. -/
theorem normalizeTypeSpec_eq_of_normalizeType_eq (t f : String)
    (hf : '-' ∉ f.data) (h : normalizeType t = f) : normalizeTypeSpec t = f := by
  have hdata : removeFirst '-' (jsToLower t).data = f.data := by
    have := congrArg String.data h
    simpa [normalizeType] using this
  have hnm : '-' ∉ removeFirst '-' (jsToLower t).data := by
    rw [hdata]; exact hf
  have := removeFirst_eq_filter_of_not_mem '-' (jsToLower t).data hnm
  rw [normalizeTypeSpec, this, hdata]

/-! ### Membership characterization of the matcher -/

theorem mem_findMatchedJobs (J : List Job) (S : List String) (f : String)
    (j : Job) (hj : j ∈ J) :
    j ∈ findMatchedJobs J S f ↔
      (∃ t ∈ j.tags, t ∈ S) ∧ (f = "all" ∨ normalizeType j.type = f) := by
  rw [findMatchedJobs]
  by_cases hS : S.length == 0
  · have : S = [] := by simpa using hS
    subst this
    simp [hS]
  · rw [if_neg hS, mem_sortDescBy, List.mem_filter]
    have hbool : (hasMatchingSkill S j && matchesFilter f j) = true ↔
        (∃ t ∈ j.tags, t ∈ S) ∧ (f = "all" ∨ normalizeType j.type = f) := by
      simp only [hasMatchingSkill, matchesFilter, Bool.and_eq_true,
        List.any_eq_true, Bool.or_eq_true, beq_iff_eq]
      constructor
      · rintro ⟨⟨t, ht, hts⟩, hor⟩
        exact ⟨⟨t, ht, List.elem_iff.mp hts⟩, hor⟩
      · rintro ⟨⟨t, ht, hts⟩, hor⟩
        exact ⟨⟨t, ht, List.elem_iff.mpr hts⟩, hor⟩
    rw [hbool]
    exact and_iff_right hj

/-! ### Concrete catalog entries used by witnesses and counterexamples -/

/-- A permanent job with one tag, as in the spec's worked example. -/
def jobA : Job :=
  { id := 1, title := "Job A", category := "Tech", type := "Permanent",
    tags := ["Coding"] }

/-- A part-time job with two tags, as in the spec's worked example. -/
def jobB : Job :=
  { id := 2, title := "Job B", category := "Design", type := "Part-Time",
    tags := ["Coding", "Design"] }

/-- A job whose type contains two hyphens; its type lowercases to
"part--time", which the code's first-occurrence replace turns into
"part-time" while the spec's remove-all-hyphens normalization turns it into
"parttime". -/
def jobDoubleHyphen : Job :=
  { id := 3, title := "Job C", category := "Tech", type := "Part--Time",
    tags := ["Coding"] }

/-- C1 as stated is false: `jobDoubleHyphen` shares a tag with the skill set
and its type with ALL hyphens removed equals the filter "parttime", yet the
matcher excludes it, because the code removes only the first hyphen. -/
theorem matcher_membership_counterexample :
    (∃ t ∈ jobDoubleHyphen.tags, t ∈ (["Coding"] : List String))
    ∧ normalizeTypeSpec jobDoubleHyphen.type = "parttime"
    ∧ jobDoubleHyphen ∉ findMatchedJobs [jobDoubleHyphen] ["Coding"] "parttime" := by
  refine ⟨⟨"Coding", by decide, by decide⟩, by decide, by decide⟩

/-- C1 (amended): a job of the catalog is in the matcher's output exactly when
it shares at least one tag with the skill set and the filter is "all" or the
job's type, lowercased with its FIRST hyphen occurrence removed, equals the
filter. -/
theorem matcher_membership (J : List Job) (S : List String) (f : String)
    (j : Job) (hj : j ∈ J) :
    j ∈ findMatchedJobs J S f ↔
      (∃ t ∈ j.tags, t ∈ S) ∧ (f = "all" ∨ normalizeType j.type = f) :=
  mem_findMatchedJobs J S f j hj

/-- Witness for C1 (amended): in the spec's worked example, `jobB` shares the
tag "Coding" with the skill set and the filter is "all", and `jobB` is indeed
in the output. -/
theorem matcher_membership_witness :
    jobB ∈ ([jobA, jobB] : List Job)
    ∧ (jobB ∈ findMatchedJobs [jobA, jobB] ["Coding"] "all" ↔
        (∃ t ∈ jobB.tags, t ∈ (["Coding"] : List String))
        ∧ ("all" = "all" ∨ normalizeType jobB.type = "all")) :=
  ⟨by decide, matcher_membership [jobA, jobB] ["Coding"] "all" jobB (by decide)⟩

/-- C2: for a non-empty skill set, the matcher's output is pairwise sorted by
descending shared-tag count, and for every count level the jobs at that level
form a sublist of the catalog, i.e. ties keep the catalog's relative order. -/
theorem matcher_sorted_stable (J : List Job) (S : List String) (f : String)
    (hS : S ≠ []) :
    (findMatchedJobs J S f).Pairwise
        (fun a b => matchCount S b ≤ matchCount S a)
    ∧ ∀ k : Nat,
        ((findMatchedJobs J S f).filter
          (fun j => matchCount S j == k)).Sublist J := by
  have hlen : ¬ (S.length == 0) = true := by
    simpa using fun h => hS (List.length_eq_zero.mp h)
  rw [findMatchedJobs, if_neg hlen]
  refine ⟨pairwise_sortDescBy _ _, ?_⟩
  intro k
  rw [filter_sortDescBy]
  exact (List.filter_sublist _).trans (List.filter_sublist _)

/-- Witness for C2: the spec's worked example, skill set "Coding" and
"Design", filter "all". -/
theorem matcher_sorted_stable_witness :
    (["Coding", "Design"] : List String) ≠ []
    ∧ ((findMatchedJobs [jobA, jobB] ["Coding", "Design"] "all").Pairwise
          (fun a b => matchCount ["Coding", "Design"] b
            ≤ matchCount ["Coding", "Design"] a)
        ∧ ∀ k : Nat,
            ((findMatchedJobs [jobA, jobB] ["Coding", "Design"] "all").filter
              (fun j => matchCount ["Coding", "Design"] j == k)).Sublist
              [jobA, jobB]) :=
  ⟨by decide,
    matcher_sorted_stable [jobA, jobB] ["Coding", "Design"] "all" (by decide)⟩

/-- C3: for every filter value other than "all" that the UI offers (in
particular "parttime"), a job the matcher includes has a type that, lowercased
with all hyphens removed, equals the filter. -/
theorem matcher_type_filter_normalization (J : List Job) (S : List String)
    (f : String) (hf : f ∈ nonAllFilters) (j : Job)
    (hj : j ∈ findMatchedJobs J S f) :
    normalizeTypeSpec j.type = f := by
  have hjJ : j ∈ J := by
    rw [findMatchedJobs] at hj
    by_cases hS : S.length == 0
    · rw [if_pos hS] at hj
      simp at hj
    · rw [if_neg hS, mem_sortDescBy] at hj
      exact (List.mem_filter.mp hj).1
  have hmem := (mem_findMatchedJobs J S f j hjJ).mp hj
  have hf3 : f = "permanent" ∨ f = "parttime" ∨ f = "onetime" := by
    simpa [nonAllFilters] using hf
  have hnorm : normalizeType j.type = f := by
    rcases hmem.2 with hall | hn
    · exfalso
      rcases hf3 with rfl | rfl | rfl
      · exact absurd hall (by decide)
      · exact absurd hall (by decide)
      · exact absurd hall (by decide)
    · exact hn
  have hnohyphen : '-' ∉ f.data := by
    rcases hf3 with rfl | rfl | rfl
    · decide
    · decide
    · decide
  exact normalizeTypeSpec_eq_of_normalizeType_eq j.type f hnohyphen hnorm

/-- Witness for C3: `jobB` (type "Part-Time") is matched under the filter
"parttime", and its type with all hyphens removed is "parttime". -/
theorem matcher_type_filter_normalization_witness :
    "parttime" ∈ nonAllFilters
    ∧ jobB ∈ findMatchedJobs [jobB] ["Coding"] "parttime"
    ∧ normalizeTypeSpec jobB.type = "parttime" :=
  ⟨by decide, by decide,
    matcher_type_filter_normalization [jobB] ["Coding"] "parttime" (by decide)
      jobB (by decide)⟩

/-- C4: with an empty skill set the matcher returns the empty list for every
catalog and every filter. -/
theorem matcher_empty_skills (J : List Job) (f : String) :
    findMatchedJobs J [] f = [] := rfl

/-! ### JavaScript values and objects -/

/-- A JavaScript value, as far as the routes and aggregators inspect one. -/
inductive JsValue where
  | undef
  | null
  | boolean (b : Bool)
  | num (n : Int)
  | str (s : String)
  | arr (elems : List JsValue)

mutual

/-- Structural equality test on JavaScript values. -/
def JsValue.beq : JsValue → JsValue → Bool
  | .undef, .undef => true
  | .null, .null => true
  | .boolean a, .boolean b => a == b
  | .num a, .num b => a == b
  | .str a, .str b => a == b
  | .arr a, .arr b => JsValue.beqList a b
  | _, _ => false

/-- Elementwise equality test on lists of JavaScript values. -/
def JsValue.beqList : List JsValue → List JsValue → Bool
  | [], [] => true
  | x :: xs, y :: ys => JsValue.beq x y && JsValue.beqList xs ys
  | _, _ => false

end

instance : BEq JsValue := ⟨JsValue.beq⟩

mutual

theorem JsValue.beq_iff_eq : ∀ a b : JsValue, JsValue.beq a b = true ↔ a = b
  | .undef, .undef => by simp [JsValue.beq]
  | .null, .null => by simp [JsValue.beq]
  | .boolean a, .boolean b => by simp [JsValue.beq]
  | .num a, .num b => by simp [JsValue.beq]
  | .str a, .str b => by simp [JsValue.beq]
  | .arr a, .arr b => by
      rw [JsValue.beq, JsValue.beqList_iff_eq a b]
      simp
  | .undef, .null | .undef, .boolean _ | .undef, .num _ | .undef, .str _
  | .undef, .arr _ | .null, .undef | .null, .boolean _ | .null, .num _
  | .null, .str _ | .null, .arr _ | .boolean _, .undef | .boolean _, .null
  | .boolean _, .num _ | .boolean _, .str _ | .boolean _, .arr _
  | .num _, .undef | .num _, .null | .num _, .boolean _ | .num _, .str _
  | .num _, .arr _ | .str _, .undef | .str _, .null | .str _, .boolean _
  | .str _, .num _ | .str _, .arr _ | .arr _, .undef | .arr _, .null
  | .arr _, .boolean _ | .arr _, .num _ | .arr _, .str _ => by
      simp [JsValue.beq]

theorem JsValue.beqList_iff_eq :
    ∀ a b : List JsValue, JsValue.beqList a b = true ↔ a = b
  | [], [] => by simp [JsValue.beqList]
  | x :: xs, y :: ys => by
      rw [JsValue.beqList, Bool.and_eq_true, JsValue.beq_iff_eq x y,
        JsValue.beqList_iff_eq xs ys]
      simp
  | [], _ :: _ => by simp [JsValue.beqList]
  | _ :: _, [] => by simp [JsValue.beqList]

end

instance : LawfulBEq JsValue where
  eq_of_beq h := (JsValue.beq_iff_eq _ _).mp h
  rfl := (JsValue.beq_iff_eq _ _).mpr rfl

instance : DecidableEq JsValue :=
  fun a b => decidable_of_iff _ (JsValue.beq_iff_eq a b)

/-- JavaScript truthiness of a value (`NaN` is not representable in the `Int`
model; every other falsy value is). -/
def JsValue.truthy : JsValue → Bool
  | .undef => false
  | .null => false
  | .boolean b => b
  | .num n => n != 0
  | .str s => s != ""
  | .arr _ => true

/-- `Array.isArray(v)`. -/
def JsValue.isArray : JsValue → Bool
  | .arr _ => true
  | _ => false

/-- `sub` occurs contiguously inside `s`. -/
def occursIn (sub s : List Char) : Bool :=
  (List.range (s.length + 1)).any (fun i => (s.drop i).take sub.length == sub)

/-- `v.includes(x)`: element membership for arrays, substring test for
strings (both per JavaScript).  Other receivers have no `includes` method and
would throw in JavaScript; the theorems below only engage array-valued skills
as the data model prescribes, so those cases are modelled as `false`. -/
def jsIncludes (v : JsValue) (x : JsValue) : Bool :=
  match v, x with
  | .arr es, _ => es.contains x
  | .str s, .str sub => occursIn sub.data s.data
  | _, _ => false

/-- Assignment `o[k] = v` on a JavaScript object modelled as an association
list in key insertion order: update in place when the key is present, append
otherwise (string keys keep first-insertion position, per ECMAScript). -/
def objSet (k : String) (v : Nat) : List (String × Nat) → List (String × Nat)
  | [] => [(k, v)]
  | (k₁, v₁) :: rest =>
      if k₁ = k then (k, v) :: rest else (k₁, v₁) :: objSet k v rest

/-- Property read `o[k]` on the object model: value at the key, if present. -/
def objGet : List (String × Nat) → String → Option Nat
  | [], _ => none
  | (k₁, v₁) :: rest, k => if k₁ = k then some v₁ else objGet rest k

/-- A document of the `user_skills` collection: `{userId, userEmail, skills,
updatedAt}`.  `skills` is kept as a raw JavaScript value (`undef` models a
missing field) because the route code guards on its truthiness. -/
structure UserSkillsDoc where
  userId : String
  userEmail : String
  skills : JsValue
  updatedAt : Nat
  deriving DecidableEq

/-! ### Dashboard aggregators (page component) -/

/-- The `skillCounts` object built by `getSkillFrequencyData`: for every
catalog skill, `skillCounts[skill.name] = allUsers.filter(user => user.skills
&& user.skills.includes(skill.name)).length`.  The chart labels are
`Object.keys` of this object and the data its values; colors and chart config
are presentation only. -/
def getSkillFrequencyData (skills : List Skill)
    (allUsers : List UserSkillsDoc) : List (String × Nat) :=
  skills.foldl (fun acc sk =>
    objSet sk.name
      ((allUsers.filter (fun u =>
        u.skills.truthy && jsIncludes u.skills (.str sk.name))).length)
      acc) []

/-- The `categoryCounts` object built by `getJobDemandData`: for every job,
`categoryCounts[job.category] = (categoryCounts[job.category] || 0) + 1`. -/
def getJobDemandData (jobs : List Job) : List (String × Nat) :=
  jobs.foldl (fun acc job =>
    objSet job.category ((objGet acc job.category).getD 0 + 1) acc) []

/-- The claim's counting predicate: the record's skills list contains the
skill name. -/
def recordHasSkill (name : String) (u : UserSkillsDoc) : Bool :=
  match u.skills with
  | .arr es => es.contains (.str name)
  | _ => false

/-- First-occurrence deduplication with an accumulator of keys already seen:
`Object.keys` ordering of an object built by repeated assignment. -/
def firstDedupAux (seen : List String) : List String → List String
  | [] => []
  | x :: xs =>
      if x ∈ seen then firstDedupAux seen xs
      else x :: firstDedupAux (x :: seen) xs

/-- Keep the first occurrence of every string, in order. -/
def firstDedup (l : List String) : List String := firstDedupAux [] l

/-! ### Lemmas about the object model -/

theorem objGet_objSet_self (k : String) (v : Nat) (o : List (String × Nat)) :
    objGet (objSet k v o) k = some v := by
  induction o with
  | nil => simp [objSet, objGet]
  | cons e rest ih =>
    obtain ⟨k₂, v₂⟩ := e
    by_cases h : k₂ = k
    · simp [objSet, objGet, h]
    · simp [objSet, objGet, h, ih]

theorem objGet_objSet_ne (k k₁ : String) (v : Nat) (o : List (String × Nat))
    (h : k₁ ≠ k) : objGet (objSet k v o) k₁ = objGet o k₁ := by
  have h₂ : ¬ (k = k₁) := fun hk => h hk.symm
  induction o with
  | nil => simp [objSet, objGet, h₂]
  | cons e rest ih =>
    obtain ⟨k₂, v₂⟩ := e
    by_cases he : k₂ = k
    · subst he
      simp [objSet, objGet, h₂]
    · simp [objSet, objGet, he, ih]

theorem objGet_isSome_iff_mem_keys (o : List (String × Nat)) (k : String) :
    (objGet o k).isSome = true ↔ k ∈ o.map Prod.fst := by
  induction o with
  | nil => simp [objGet]
  | cons e rest ih =>
    obtain ⟨k₂, v₂⟩ := e
    by_cases h : k₂ = k
    · simp [objGet, h]
    · simp only [objGet, if_neg h, List.map_cons, List.mem_cons, ih]
      constructor
      · exact Or.inr
      · rintro (hk | hk)
        · exact absurd hk.symm h
        · exact hk

theorem map_fst_objSet_mem (k : String) (v : Nat) (o : List (String × Nat))
    (h : k ∈ o.map Prod.fst) :
    (objSet k v o).map Prod.fst = o.map Prod.fst := by
  induction o with
  | nil => simp at h
  | cons e rest ih =>
    obtain ⟨k₂, v₂⟩ := e
    by_cases he : k₂ = k
    · simp [objSet, he]
    · have hrest : k ∈ rest.map Prod.fst := by
        rw [List.map_cons] at h
        rcases List.mem_cons.mp h with hk | hk
        · exact absurd hk.symm he
        · exact hk
      simp [objSet, he, ih hrest]

theorem map_fst_objSet_not_mem (k : String) (v : Nat) (o : List (String × Nat))
    (h : k ∉ o.map Prod.fst) :
    (objSet k v o).map Prod.fst = o.map Prod.fst ++ [k] := by
  induction o with
  | nil => simp [objSet]
  | cons e rest ih =>
    obtain ⟨k₂, v₂⟩ := e
    have he : k₂ ≠ k := by
      intro hk
      exact h (by simp [hk])
    have hrest : k ∉ rest.map Prod.fst := fun hk => h (by simp [hk])
    simp [objSet, he, ih hrest]

theorem firstDedupAux_congr (seen₁ seen₂ : List String)
    (h : ∀ a, a ∈ seen₁ ↔ a ∈ seen₂) :
    ∀ l : List String, firstDedupAux seen₁ l = firstDedupAux seen₂ l
  | [] => rfl
  | x :: xs => by
    by_cases hx : x ∈ seen₁
    · rw [firstDedupAux, if_pos hx, firstDedupAux, if_pos ((h x).mp hx),
        firstDedupAux_congr seen₁ seen₂ h xs]
    · rw [firstDedupAux, if_neg hx, firstDedupAux,
        if_neg (fun hc => hx ((h x).mpr hc)),
        firstDedupAux_congr (x :: seen₁) (x :: seen₂)
          (fun a => by simp [h a]) xs]

/-- Keys of an object built by a left fold of assignments: the accumulator's
keys followed by the first occurrences of the new keys, in iteration order. -/
theorem map_fst_foldl_objSet {β : Type} (key : β → String)
    (value : List (String × Nat) → β → Nat) :
    ∀ (l : List β) (acc : List (String × Nat)),
      ((l.foldl (fun a b => objSet (key b) (value a b) a) acc).map Prod.fst)
        = acc.map Prod.fst ++ firstDedupAux (acc.map Prod.fst) (l.map key)
  | [], acc => by simp [firstDedupAux]
  | b :: rest, acc => by
    rw [List.foldl_cons, map_fst_foldl_objSet key value rest, List.map_cons,
      firstDedupAux]
    by_cases h : key b ∈ acc.map Prod.fst
    · rw [map_fst_objSet_mem _ _ _ h, if_pos h]
    · rw [map_fst_objSet_not_mem _ _ _ h, if_neg h,
        firstDedupAux_congr (acc.map Prod.fst ++ [key b])
          (key b :: acc.map Prod.fst) (fun a => by simp [or_comm])
          (rest.map key)]
      simp

/-- Reading a key from an object built by assignments whose stored value is a
function of the key alone: any assignment to that key stores the same value,
so the read returns it whenever the key was iterated over. -/
theorem objGet_foldl_keyval (value : String → Nat) :
    ∀ (l : List Skill) (acc : List (String × Nat)) (k : String),
      objGet (l.foldl (fun a sk => objSet sk.name (value sk.name) a) acc) k
        = if k ∈ l.map Skill.name then some (value k) else objGet acc k
  | [], acc, k => by simp
  | sk :: rest, acc, k => by
    rw [List.foldl_cons, objGet_foldl_keyval value rest, List.map_cons]
    by_cases hrest : k ∈ rest.map Skill.name
    · rw [if_pos hrest, if_pos (List.mem_cons_of_mem _ hrest)]
    · by_cases hk : sk.name = k
      · rw [if_neg hrest, if_pos (by simp [hk]), hk, objGet_objSet_self]
      · rw [if_neg hrest, objGet_objSet_ne _ _ _ _ (fun hc => hk hc.symm),
          if_neg (by
            simp only [List.mem_cons]
            rintro (hc | hc)
            · exact hk hc.symm
            · exact hrest hc)]

/-- Reading a category from the demand object built over a job list. -/
theorem objGet_foldl_demand :
    ∀ (jobs : List Job) (acc : List (String × Nat)) (c : String),
      objGet (jobs.foldl
          (fun a j => objSet j.category ((objGet a j.category).getD 0 + 1) a)
          acc) c
        = if (objGet acc c).isSome = true ∨ c ∈ jobs.map Job.category
          then some ((objGet acc c).getD 0
            + (jobs.filter (fun j => j.category == c)).length)
          else none
  | [], acc, c => by
    by_cases h : (objGet acc c).isSome = true
    · rcases Option.isSome_iff_exists.mp h with ⟨v, hv⟩
      simp [hv]
    · have hnone : objGet acc c = none := Option.not_isSome_iff_eq_none.mp h
      simp [hnone]
  | j :: rest, acc, c => by
    rw [List.foldl_cons,
      objGet_foldl_demand rest
        (objSet j.category ((objGet acc j.category).getD 0 + 1) acc) c,
      List.map_cons, List.filter_cons]
    by_cases hc : j.category = c
    · subst hc
      rw [objGet_objSet_self,
        if_pos (Or.inl (by simp)),
        if_pos (Or.inr (List.mem_cons_self _ _)),
        if_pos (by simp)]
      simp only [Option.getD_some, List.length_cons]
      congr 1
      omega
    · have hne : c ≠ j.category := fun hx => hc hx.symm
      have hfilter : ¬ ((j.category == c) = true) := by simp [hc]
      rw [objGet_objSet_ne _ _ _ _ hne, if_neg hfilter]
      by_cases hcond : (objGet acc c).isSome = true ∨ c ∈ rest.map Job.category
      · rw [if_pos hcond, if_pos (by
          rcases hcond with hx | hx
          · exact Or.inl hx
          · exact Or.inr (List.mem_cons_of_mem _ hx))]
      · rw [if_neg hcond, if_neg (by
          rintro (hx | hx)
          · exact hcond (Or.inl hx)
          · rcases List.mem_cons.mp hx with hx | hx
            · exact hne hx
            · exact hcond (Or.inr hx))]

/-! ### Dashboard aggregator theorems -/

/-- C7: for every catalog skill, the frequency object maps the skill's name to
the number of user records whose skills list contains that name; in
particular a catalog skill held by no user is present with count 0.  The
hypothesis that every record's skills is an array is the data-model invariant
(the skills-saving route only ever stores arrays). -/
theorem skillFrequency_counts (skills : List Skill)
    (users : List UserSkillsDoc) (h : ∀ u ∈ users, u.skills.isArray = true) :
    ∀ sk ∈ skills,
      objGet (getSkillFrequencyData skills users) sk.name
          = some ((users.filter (fun u => recordHasSkill sk.name u)).length)
      ∧ ((∀ u ∈ users, recordHasSkill sk.name u = false) →
          objGet (getSkillFrequencyData skills users) sk.name = some 0) := by
  have hpt : ∀ (name : String), ∀ u ∈ users,
      (u.skills.truthy && jsIncludes u.skills (.str name))
        = recordHasSkill name u := by
    intro name u hu
    have harr := h u hu
    cases hv : u.skills with
    | arr es => simp [JsValue.truthy, jsIncludes, recordHasSkill, hv]
    | undef => rw [hv] at harr; simp [JsValue.isArray] at harr
    | null => rw [hv] at harr; simp [JsValue.isArray] at harr
    | boolean b => rw [hv] at harr; simp [JsValue.isArray] at harr
    | num n => rw [hv] at harr; simp [JsValue.isArray] at harr
    | str s => rw [hv] at harr; simp [JsValue.isArray] at harr
  have hstep : (fun (acc : List (String × Nat)) (sk : Skill) =>
      objSet sk.name
        ((users.filter (fun u =>
          u.skills.truthy && jsIncludes u.skills (.str sk.name))).length)
        acc)
      = (fun acc sk =>
          objSet sk.name
            ((users.filter (fun u => recordHasSkill sk.name u)).length)
            acc) := by
    funext acc sk
    rw [List.filter_congr (hpt sk.name)]
  intro sk hsk
  have hget : objGet (getSkillFrequencyData skills users) sk.name
      = some ((users.filter (fun u => recordHasSkill sk.name u)).length) := by
    have hkey := objGet_foldl_keyval
        (fun name => (users.filter (fun u => recordHasSkill name u)).length)
        skills [] sk.name
    rw [if_pos (List.mem_map_of_mem Skill.name hsk)] at hkey
    rw [getSkillFrequencyData, hstep]
    exact hkey
  refine ⟨hget, fun hzero => ?_⟩
  have hnil : users.filter (fun u => recordHasSkill sk.name u) = [] :=
    List.filter_eq_nil_iff.mpr (fun u hu => by simp [hzero u hu])
  rw [hget, hnil]
  rfl

/-- The skill-catalog entries of the spec's aggregation example. -/
def skillCoding : Skill := { id := 1, name := "Coding" }

/-- Second catalog skill of the example. -/
def skillDesign : Skill := { id := 2, name := "Design" }

/-- A catalog skill held by no user in the example. -/
def skillWriting : Skill := { id := 3, name := "Writing" }

/-- A user record holding the single skill "Coding". -/
def userRec1 : UserSkillsDoc :=
  { userId := "u1", userEmail := "u1@example.com",
    skills := .arr [.str "Coding"], updatedAt := 0 }

/-- A user record holding the skills "Coding" and "Design". -/
def userRec2 : UserSkillsDoc :=
  { userId := "u2", userEmail := "u2@example.com",
    skills := .arr [.str "Coding", .str "Design"], updatedAt := 0 }

/-- Witness for C7: the spec's example catalog and users; all records hold
array-valued skills. -/
theorem skillFrequency_counts_witness :
    (∀ u ∈ ([userRec1, userRec2] : List UserSkillsDoc),
        u.skills.isArray = true)
    ∧ (∀ sk ∈ ([skillCoding, skillDesign, skillWriting] : List Skill),
        objGet (getSkillFrequencyData [skillCoding, skillDesign, skillWriting]
            [userRec1, userRec2]) sk.name
          = some ((([userRec1, userRec2] : List UserSkillsDoc).filter
              (fun u => recordHasSkill sk.name u)).length)
        ∧ ((∀ u ∈ ([userRec1, userRec2] : List UserSkillsDoc),
              recordHasSkill sk.name u = false) →
            objGet (getSkillFrequencyData
                [skillCoding, skillDesign, skillWriting]
                [userRec1, userRec2]) sk.name = some 0)) :=
  ⟨by decide,
    skillFrequency_counts [skillCoding, skillDesign, skillWriting]
      [userRec1, userRec2] (by decide)⟩

/-- C8: the demand object maps a category to the number of jobs having it
when at least one job does, and has no key for a category no job has; key
presence is exactly occurrence among the jobs. -/
theorem jobDemand_counts (jobs : List Job) (c : String) :
    objGet (getJobDemandData jobs) c
        = (if c ∈ jobs.map Job.category
           then some ((jobs.filter (fun j => j.category == c)).length)
           else none)
    ∧ (c ∈ (getJobDemandData jobs).map Prod.fst ↔ c ∈ jobs.map Job.category) := by
  have hchar := objGet_foldl_demand jobs [] c
  have hnone : objGet [] c = none := rfl
  rw [hnone] at hchar
  simp only [Option.isSome_none, Bool.false_eq_true, false_or,
    Option.getD_none, Nat.zero_add] at hchar
  have hmain : objGet (getJobDemandData jobs) c
      = (if c ∈ jobs.map Job.category
         then some ((jobs.filter (fun j => j.category == c)).length)
         else none) := by
    simp only [getJobDemandData]
    exact hchar
  refine ⟨hmain, ?_⟩
  rw [← objGet_isSome_iff_mem_keys, hmain]
  by_cases hm : c ∈ jobs.map Job.category
  · simp [hm]
  · simp [hm]

/-- C9: the aggregators are pure functions, insensitive to the order of their
input collections (a permutation of the users leaves the frequency object
unchanged; a permutation of the jobs leaves every per-category count
unchanged), and their key order is the catalog's iteration order for the
frequency object and first-seen order for the demand object. -/
theorem aggregators_pure_order_insensitive :
    (∀ (skills : List Skill) (users users₂ : List UserSkillsDoc),
        users.Perm users₂ →
        getSkillFrequencyData skills users
          = getSkillFrequencyData skills users₂)
    ∧ (∀ (jobs jobs₂ : List Job), jobs.Perm jobs₂ →
        ∀ c, objGet (getJobDemandData jobs) c
          = objGet (getJobDemandData jobs₂) c)
    ∧ (∀ (skills : List Skill) (users : List UserSkillsDoc),
        (getSkillFrequencyData skills users).map Prod.fst
          = firstDedup (skills.map Skill.name))
    ∧ (∀ jobs : List Job,
        (getJobDemandData jobs).map Prod.fst
          = firstDedup (jobs.map Job.category)) := by
  refine ⟨?_, ?_, ?_, ?_⟩
  · intro skills users users₂ hperm
    have hstep : (fun (acc : List (String × Nat)) (sk : Skill) =>
        objSet sk.name
          ((users.filter (fun u =>
            u.skills.truthy && jsIncludes u.skills (.str sk.name))).length)
          acc)
        = (fun acc sk =>
            objSet sk.name
              ((users₂.filter (fun u =>
                u.skills.truthy && jsIncludes u.skills (.str sk.name))).length)
              acc) := by
      funext acc sk
      rw [(hperm.filter _).length_eq]
    simp only [getSkillFrequencyData, hstep]
  · intro jobs jobs₂ hperm c
    have h₁ := objGet_foldl_demand jobs [] c
    have h₂ := objGet_foldl_demand jobs₂ [] c
    have hmem : c ∈ jobs.map Job.category ↔ c ∈ jobs₂.map Job.category :=
      (hperm.map _).mem_iff
    have hlen : (jobs.filter (fun j => j.category == c)).length
        = (jobs₂.filter (fun j => j.category == c)).length :=
      (hperm.filter _).length_eq
    simp only [getJobDemandData]
    rw [h₁, h₂]
    rw [if_congr (by rw [hmem]) (by rw [hlen]) rfl]
  · intro skills users
    have hkeys := map_fst_foldl_objSet Skill.name
        (fun _ sk => (users.filter (fun u =>
          u.skills.truthy && jsIncludes u.skills (.str sk.name))).length)
        skills []
    simpa [getSkillFrequencyData, firstDedup] using hkeys
  · intro jobs
    have hkeys := map_fst_foldl_objSet Job.category
        (fun acc job => (objGet acc job.category).getD 0 + 1) jobs []
    simpa [getJobDemandData, firstDedup] using hkeys

/-- Witness for C9: swapping the two example users leaves the frequency
object unchanged, and swapping two jobs leaves every category count
unchanged. -/
theorem aggregators_pure_order_insensitive_witness :
    ([userRec1, userRec2] : List UserSkillsDoc).Perm [userRec2, userRec1]
    ∧ getSkillFrequencyData [skillCoding, skillDesign] [userRec1, userRec2]
        = getSkillFrequencyData [skillCoding, skillDesign] [userRec2, userRec1]
    ∧ ([jobA, jobB] : List Job).Perm [jobB, jobA]
    ∧ ∀ c, objGet (getJobDemandData [jobA, jobB]) c
        = objGet (getJobDemandData [jobB, jobA]) c :=
  ⟨List.Perm.swap userRec2 userRec1 [],
    aggregators_pure_order_insensitive.1 [skillCoding, skillDesign] _ _
      (List.Perm.swap userRec2 userRec1 []),
    List.Perm.swap jobB jobA [],
    aggregators_pure_order_insensitive.2.1 [jobA, jobB] [jobB, jobA]
      (List.Perm.swap jobB jobA [])⟩

/-! ### The API route (`handleRoute` in `route.js`) -/

/-- An authenticated user identity returned by the auth provider. -/
structure User where
  id : String
  email : String
  deriving DecidableEq

/-- A parsed JSON request body; a field the client did not send reads as
`undef`, like JavaScript property access on a missing key. -/
structure ReqBody where
  email : JsValue := .undef
  password : JsValue := .undef
  skills : JsValue := .undef
  client_name : JsValue := .undef
  deriving DecidableEq

/-- A `status_checks` document `{id, client_name, timestamp}`. -/
structure StatusCheck where
  id : String
  client_name : JsValue
  timestamp : Nat
  deriving DecidableEq

/-- The JSON shapes `handleRoute` responds with. -/
inductive ResBody where
  | errorMsg (msg : String)
  | message (msg : String)
  | userBody (u : User)
  | userSession (u : User) (session : String)
  | skillsBody (skills : JsValue)
  | messageSkills (msg : String) (skills : JsValue)
  | usersBody (users : List UserSkillsDoc)
  | matchEcho (msg : String) (userSkills : JsValue)
  | statusObj (s : StatusCheck)
  | statusList (l : List StatusCheck)
  deriving DecidableEq

/-- An HTTP response: status code and JSON body.  CORS headers are identical
on every response and elided. -/
structure Response where
  status : Nat
  body : ResBody
  deriving DecidableEq

/-- `db.collection('user_skills').findOne({userId})`: the first matching
document, if any. -/
def findOneByUserId (store : List UserSkillsDoc) (uid : String) :
    Option UserSkillsDoc :=
  store.find? (fun d => d.userId == uid)

/-- `replaceOne({userId}, doc, {upsert: true})`: replace the first document
with the same userId, or insert the document when none matches. -/
def upsertByUserId (doc : UserSkillsDoc) :
    List UserSkillsDoc → List UserSkillsDoc
  | [] => [doc]
  | d :: rest =>
      if d.userId == doc.userId then doc :: rest
      else d :: upsertByUserId doc rest

/-- The results of the external effects one request can perform, fixed up
front: `Except`-valued fields and the `Option String` fault fields model
calls that can throw (`error`/`some` carries the thrown message).  `store`
and `statusStore` are the two MongoDB collections. -/
structure ApiEnv where
  mongoConnect : Except String Unit
  auth : Except String User
  json : Except String ReqBody
  signUp : Except String User
  signIn : Except String (User × String)
  signOut : Except String Unit
  store : List UserSkillsDoc
  statusStore : List StatusCheck
  findOneFault : Option String := none
  replaceFault : Option String := none
  findAllFault : Option String := none
  statusInsertFault : Option String := none
  statusFindFault : Option String := none
  now : Nat := 0
  newId : String := ""

/-- What one request produces: the response and the state of the two
collections afterwards. -/
structure ApiOutcome where
  response : Response
  store : List UserSkillsDoc
  statusStore : List StatusCheck
  deriving DecidableEq

/-- The body of `handleRoute` inside its top-level try: dispatch on route and
method.  `Except.error` is an exception escaping to the top-level catch;
handlers with their own try/catch in the source appear as matches that turn
effect errors into responses. -/
def routeCore (env : ApiEnv) (route method : String) :
    Except String ApiOutcome :=
  match env.mongoConnect with
  | .error msg => .error msg
  | .ok _ =>
    if route == "/" && method == "GET" then
      .ok ⟨⟨200, .message "WorkWise API - Where Skills Meet Jobs"⟩,
        env.store, env.statusStore⟩
    else if route == "/auth/signup" && method == "POST" then
      match env.json with
      | .error msg => .error msg
      | .ok _body =>
        match env.signUp with
        | .error msg => .ok ⟨⟨400, .errorMsg msg⟩, env.store, env.statusStore⟩
        | .ok u => .ok ⟨⟨200, .userBody u⟩, env.store, env.statusStore⟩
    else if route == "/auth/signin" && method == "POST" then
      match env.json with
      | .error msg => .error msg
      | .ok _body =>
        match env.signIn with
        | .error msg => .ok ⟨⟨400, .errorMsg msg⟩, env.store, env.statusStore⟩
        | .ok us =>
            .ok ⟨⟨200, .userSession us.1 us.2⟩, env.store, env.statusStore⟩
    else if route == "/auth/signout" && method == "POST" then
      match env.signOut with
      | .error msg => .ok ⟨⟨400, .errorMsg msg⟩, env.store, env.statusStore⟩
      | .ok _ =>
          .ok ⟨⟨200, .message "Signed out successfully"⟩,
            env.store, env.statusStore⟩
    else if route == "/auth/user" && method == "GET" then
      match env.auth with
      | .error msg => .ok ⟨⟨401, .errorMsg msg⟩, env.store, env.statusStore⟩
      | .ok u => .ok ⟨⟨200, .userBody u⟩, env.store, env.statusStore⟩
    else if route == "/user/skills" && method == "GET" then
      match env.auth with
      | .error msg => .ok ⟨⟨401, .errorMsg msg⟩, env.store, env.statusStore⟩
      | .ok u =>
        match env.findOneFault with
        | some msg => .ok ⟨⟨401, .errorMsg msg⟩, env.store, env.statusStore⟩
        | none =>
          let v : JsValue :=
            match findOneByUserId env.store u.id with
            | none => .arr []
            | some doc => if doc.skills.truthy then doc.skills else .arr []
          .ok ⟨⟨200, .skillsBody v⟩, env.store, env.statusStore⟩
    else if route == "/user/skills" && method == "POST" then
      match env.auth with
      | .error msg => .ok ⟨⟨401, .errorMsg msg⟩, env.store, env.statusStore⟩
      | .ok u =>
        match env.json with
        | .error msg => .ok ⟨⟨401, .errorMsg msg⟩, env.store, env.statusStore⟩
        | .ok body =>
          if !(body.skills.truthy && body.skills.isArray) then
            .ok ⟨⟨400, .errorMsg "Skills array is required"⟩,
              env.store, env.statusStore⟩
          else
            match env.replaceFault with
            | some msg =>
                .ok ⟨⟨401, .errorMsg msg⟩, env.store, env.statusStore⟩
            | none =>
              let userSkillsDoc : UserSkillsDoc :=
                ⟨u.id, u.email, body.skills, env.now⟩
              .ok ⟨⟨200, .messageSkills "Skills updated successfully"
                    body.skills⟩,
                upsertByUserId userSkillsDoc env.store, env.statusStore⟩
    else if route == "/dashboard/users" && method == "GET" then
      match env.auth with
      | .error msg => .ok ⟨⟨401, .errorMsg msg⟩, env.store, env.statusStore⟩
      | .ok _ =>
        match env.findAllFault with
        | some msg => .ok ⟨⟨401, .errorMsg msg⟩, env.store, env.statusStore⟩
        | none => .ok ⟨⟨200, .usersBody env.store⟩, env.store, env.statusStore⟩
    else if route == "/jobs/match" && method == "POST" then
      match env.auth with
      | .error msg => .ok ⟨⟨401, .errorMsg msg⟩, env.store, env.statusStore⟩
      | .ok _ =>
        match env.json with
        | .error msg => .ok ⟨⟨401, .errorMsg msg⟩, env.store, env.statusStore⟩
        | .ok body =>
            .ok ⟨⟨200, .matchEcho "Job matching logic placeholder"
                  body.skills⟩,
              env.store, env.statusStore⟩
    else if route == "/status" && method == "POST" then
      match env.json with
      | .error msg => .error msg
      | .ok body =>
        if !body.client_name.truthy then
          .ok ⟨⟨400, .errorMsg "client_name is required"⟩,
            env.store, env.statusStore⟩
        else
          match env.statusInsertFault with
          | some msg => .error msg
          | none =>
            let statusObj : StatusCheck := ⟨env.newId, body.client_name, env.now⟩
            .ok ⟨⟨200, .statusObj statusObj⟩,
              env.store, env.statusStore ++ [statusObj]⟩
    else if route == "/status" && method == "GET" then
      match env.statusFindFault with
      | some msg => .error msg
      | none =>
          .ok ⟨⟨200, .statusList (env.statusStore.take 1000)⟩,
            env.store, env.statusStore⟩
    else
      .ok ⟨⟨404, .errorMsg ("Route " ++ route ++ " not found")⟩,
        env.store, env.statusStore⟩

/-- `handleRoute`: the top-level try/catch collapses any escaped exception to
a generic 500; no state changes on that path. -/
def handleRoute (env : ApiEnv) (route method : String) : ApiOutcome :=
  match routeCore env route method with
  | .ok out => out
  | .error _ =>
      ⟨⟨500, .errorMsg "Internal server error"⟩, env.store, env.statusStore⟩

/-- The (route, method) pairs the dispatcher handles. -/
def matchedPairs : List (String × String) :=
  [("/", "GET"), ("/auth/signup", "POST"), ("/auth/signin", "POST"),
   ("/auth/signout", "POST"), ("/auth/user", "GET"), ("/user/skills", "GET"),
   ("/user/skills", "POST"), ("/dashboard/users", "GET"),
   ("/jobs/match", "POST"), ("/status", "POST"), ("/status", "GET")]

/-! ### Lemmas about the route embedding -/

/-- Arrays are truthy, so the guard `!body.skills || !Array.isArray(...)`
rejects exactly the non-arrays. -/
theorem truthy_and_isArray (v : JsValue) :
    (v.truthy && v.isArray) = v.isArray := by
  cases v <;> simp [JsValue.truthy, JsValue.isArray]

/-- After an upsert, looking the user up finds exactly the new document. -/
theorem findOne_upsert_self (doc : UserSkillsDoc)
    (store : List UserSkillsDoc) :
    findOneByUserId (upsertByUserId doc store) doc.userId = some doc := by
  induction store with
  | nil => simp [upsertByUserId, findOneByUserId]
  | cons d rest ih =>
    by_cases h : (d.userId == doc.userId) = true
    · rw [upsertByUserId, if_pos h]
      simp [findOneByUserId, List.find?_cons]
    · rw [upsertByUserId, if_neg h]
      simp only [findOneByUserId] at ih ⊢
      rw [List.find?_cons]
      simp only [h]
      exact ih

/-- Arrays are truthy outright. -/
theorem truthy_of_isArray {v : JsValue} (h : v.isArray = true) :
    v.truthy = true := by
  cases v
  case arr => rfl
  all_goals exact absurd h (by simp [JsValue.isArray])

/-! ### Route theorems -/

/-- C5: for an authenticated POST /user/skills whose body parsed and whose
database write does not fault, the request is rejected with 400 "Skills array
is required" and an untouched store exactly when the body's skills value is
not an array (a missing field reads as `undef`, which is not an array); and
whenever it is an array — of any length, so also with more than 3 entries —
the user's record is wholly replaced by an upsert keyed on the user id. -/
theorem postSkills_validation_upsert (env : ApiEnv) (u : User)
    (body : ReqBody) (hc : env.mongoConnect = .ok ()) (ha : env.auth = .ok u)
    (hj : env.json = .ok body) (hr : env.replaceFault = none) :
    (((handleRoute env "/user/skills" "POST").response
        = ⟨400, .errorMsg "Skills array is required"⟩
      ∧ (handleRoute env "/user/skills" "POST").store = env.store)
     ↔ body.skills.isArray = false)
    ∧ (body.skills.isArray = true →
        handleRoute env "/user/skills" "POST"
          = ⟨⟨200, .messageSkills "Skills updated successfully" body.skills⟩,
             upsertByUserId ⟨u.id, u.email, body.skills, env.now⟩ env.store,
             env.statusStore⟩
        ∧ findOneByUserId
            (upsertByUserId ⟨u.id, u.email, body.skills, env.now⟩ env.store)
            u.id
          = some ⟨u.id, u.email, body.skills, env.now⟩) := by
  by_cases hb : body.skills.isArray = true
  · have hrun : handleRoute env "/user/skills" "POST"
        = ⟨⟨200, .messageSkills "Skills updated successfully" body.skills⟩,
           upsertByUserId ⟨u.id, u.email, body.skills, env.now⟩ env.store,
           env.statusStore⟩ := by
      simp [handleRoute, routeCore, hc, ha, hj, hr, hb, truthy_of_isArray hb]
    refine ⟨⟨fun h => ?_, fun h => ?_⟩,
      fun _ => ⟨hrun, findOne_upsert_self ⟨u.id, u.email, body.skills, env.now⟩
        env.store⟩⟩
    · rw [hrun] at h
      exact absurd h.1 (by simp)
    · rw [hb] at h
      exact absurd h (by simp)
  · have hb₂ : body.skills.isArray = false := by
      cases hx : body.skills.isArray
      · rfl
      · exact absurd hx hb
    have hrun : handleRoute env "/user/skills" "POST"
        = ⟨⟨400, .errorMsg "Skills array is required"⟩,
           env.store, env.statusStore⟩ := by
      simp [handleRoute, routeCore, hc, ha, hj, truthy_and_isArray, hb₂]
    exact ⟨⟨fun _ => hb₂, fun _ => ⟨by rw [hrun], by rw [hrun]⟩⟩,
      fun h => absurd h hb⟩

/-- A baseline environment: connection and authentication succeed, empty
collections, no faults. -/
def okEnv : ApiEnv :=
  { mongoConnect := .ok (), auth := .ok ⟨"u1", "u1@example.com"⟩,
    json := .ok {}, signUp := .error "unused", signIn := .error "unused",
    signOut := .error "unused", store := [], statusStore := [] }

/-- An environment whose database connection fails. -/
def connFailEnv : ApiEnv := { okEnv with mongoConnect := .error "boom" }

/-- An environment where the status-collection read throws. -/
def statusFaultEnv : ApiEnv := { okEnv with statusFindFault := some "db down" }

/-- An environment where the user-skills findOne call throws "db down" while
connection and authentication succeed. -/
def dbFaultEnv : ApiEnv := { okEnv with findOneFault := some "db down" }

/-- The user's prior skills record, to be overwritten. -/
def priorDoc : UserSkillsDoc :=
  { userId := "u1", userEmail := "u1@example.com",
    skills := .arr [.str "Coding"], updatedAt := 0 }

/-- A four-element skills array: more than the presentation layer's cap. -/
def fourSkills : JsValue :=
  .arr [.str "Coding", .str "Design", .str "Writing", .str "Marketing"]

/-- The POST body carrying the four skills. -/
def fourBody : ReqBody := { skills := fourSkills }

/-- An environment carrying a POST body with four skills and a prior record
in the store. -/
def postEnv : ApiEnv :=
  { okEnv with store := [priorDoc], json := .ok fourBody, now := 5 }

/-- Witness for C5: a direct POST with four skills succeeds with 200 and
overwrites the prior record wholesale. -/
theorem postSkills_validation_upsert_witness :
    handleRoute postEnv "/user/skills" "POST"
      = ⟨⟨200, .messageSkills "Skills updated successfully" fourSkills⟩,
         [⟨"u1", "u1@example.com", fourSkills, 5⟩], []⟩ := by
  have h := ((postSkills_validation_upsert postEnv ⟨"u1", "u1@example.com"⟩
      fourBody rfl rfl rfl rfl).2 rfl).1
  rw [h]
  decide

/-- C6 as stated is false: a database error during GET /user/skills is caught
by that route's own catch block and surfaces as 401 carrying the thrown
message — detail leaked, and not the generic 500 failure. -/
theorem errors_counterexample :
    (handleRoute dbFaultEnv "/user/skills" "GET").response
        = ⟨401, .errorMsg "db down"⟩
    ∧ (handleRoute dbFaultEnv "/user/skills" "GET").response
        ≠ ⟨500, .errorMsg "Internal server error"⟩ :=
  ⟨rfl, by decide⟩

/-- C6 (amended): unmatched route/method pairs give 404 with "Route <path>
not found"; an exception escaping the per-route handlers — a failed database
connection anywhere, or a database error in the status routes, which have no
local catch — collapses to the generic 500 with no detail leaked; but a
database or auth error inside a route with its own catch (here GET
/user/skills) surfaces to the caller as 401 carrying the error's own message
rather than the generic failure. -/
theorem errors_and_unmatched_routes (env : ApiEnv) (route method : String)
    (u : User) (e : String) :
    (env.mongoConnect = .ok () → (route, method) ∉ matchedPairs →
      handleRoute env route method
        = ⟨⟨404, .errorMsg ("Route " ++ route ++ " not found")⟩,
           env.store, env.statusStore⟩)
    ∧ (env.mongoConnect = .error e →
        handleRoute env route method
          = ⟨⟨500, .errorMsg "Internal server error"⟩,
             env.store, env.statusStore⟩)
    ∧ (env.mongoConnect = .ok () → env.statusFindFault = some e →
        handleRoute env "/status" "GET"
          = ⟨⟨500, .errorMsg "Internal server error"⟩,
             env.store, env.statusStore⟩)
    ∧ (env.mongoConnect = .ok () → env.auth = .ok u →
        env.findOneFault = some e →
        (handleRoute env "/user/skills" "GET").response
          = ⟨401, .errorMsg e⟩) := by
  refine ⟨?_, ?_, ?_, ?_⟩
  · intro hc hnot
    simp only [matchedPairs, List.mem_cons, List.not_mem_nil,
      Prod.mk.injEq, not_or] at hnot
    obtain ⟨n₁, n₂, n₃, n₄, n₅, n₆, n₇, n₈, n₉, n₁₀, n₁₁, -⟩ := hnot
    simp [handleRoute, routeCore, hc, n₁, n₂, n₃, n₄, n₅, n₆, n₇, n₈, n₉,
      n₁₀, n₁₁]
  · intro hc
    simp [handleRoute, routeCore, hc]
  · intro hc hs
    simp [handleRoute, routeCore, hc, hs]
  · intro hc ha hf
    simp [handleRoute, routeCore, hc, ha, hf]

/-- Witness for C6 (amended): an unknown path 404s, a failed connection and a
status-read fault 500 generically, and the caught findOne fault surfaces as
401 "db down". -/
theorem errors_and_unmatched_routes_witness :
    handleRoute okEnv "/nope" "GET"
      = ⟨⟨404, .errorMsg "Route /nope not found"⟩, [], []⟩
    ∧ handleRoute connFailEnv "/" "GET"
      = ⟨⟨500, .errorMsg "Internal server error"⟩, [], []⟩
    ∧ handleRoute statusFaultEnv "/status" "GET"
      = ⟨⟨500, .errorMsg "Internal server error"⟩, [], []⟩
    ∧ (handleRoute dbFaultEnv "/user/skills" "GET").response
      = ⟨401, .errorMsg "db down"⟩ :=
  ⟨(errors_and_unmatched_routes okEnv "/nope" "GET" ⟨"u1", "u1@example.com"⟩
      "e").1 rfl (by decide),
   (errors_and_unmatched_routes connFailEnv "/" "GET"
      ⟨"u1", "u1@example.com"⟩ "boom").2.1 rfl,
   (errors_and_unmatched_routes statusFaultEnv "/x" "GET"
      ⟨"u1", "u1@example.com"⟩ "db down").2.2.1 rfl rfl,
   (errors_and_unmatched_routes dbFaultEnv "/x" "GET"
      ⟨"u1", "u1@example.com"⟩ "db down").2.2.2 rfl rfl rfl⟩

/-- C10: an authenticated GET /user/skills for a user with no stored record,
or whose stored record lacks a skills field, responds 200 with an empty
skills array rather than an error. -/
theorem getSkills_missing_record (env : ApiEnv) (u : User)
    (hc : env.mongoConnect = .ok ()) (ha : env.auth = .ok u)
    (hf : env.findOneFault = none)
    (hrec : findOneByUserId env.store u.id = none
      ∨ ∃ d, findOneByUserId env.store u.id = some d ∧ d.skills = .undef) :
    (handleRoute env "/user/skills" "GET").response
      = ⟨200, .skillsBody (.arr [])⟩ := by
  rcases hrec with hrec | ⟨d, hrec, hskills⟩
  · simp [handleRoute, routeCore, hc, ha, hf, hrec]
  · simp [handleRoute, routeCore, hc, ha, hf, hrec, hskills, JsValue.truthy]

/-- Witness for C10: the empty store holds no record for the user, and the
response is 200 with an empty skills array. -/
theorem getSkills_missing_record_witness :
    (handleRoute okEnv "/user/skills" "GET").response
      = ⟨200, .skillsBody (.arr [])⟩ :=
  getSkills_missing_record okEnv ⟨"u1", "u1@example.com"⟩ rfl rfl rfl
    (Or.inl rfl)

end WorkWise
